import Mathlib

/-!
Shallow embedding of the EV charge scheduler (src/schedule.py together
with src/utils.py).  Instants are integers counting seconds since an
arbitrary epoch, all in UTC; durations are integers counting seconds.
A period is a pair (start, stop) of instants, half-open in behaviour.
Wall-clock times are (hour, minute) pairs of integers, mirroring what
parse_time extracts from an HH:MM string.  Carbon intensities are
integers; the code only ever compares them.  The external file read done
by load_co2_measures is modelled by passing the measure list as an
argument to schedule.
-/

namespace EVSchedule

/-- A carbon measure record as produced by load_co2_measures: a half-open
span [co2_from, co2_to) with an intensity reading. -/
structure CO2Measure where
  co2_from : ℤ
  co2_to : ℤ
  intensity : ℤ
deriving DecidableEq

/-- A clipped forecast entry: the dictionary with keys from, to and
forecast built by the list comprehension inside optimize_co2. -/
structure CO2Forecast where
  fcst_from : ℤ
  fcst_to : ℤ
  forecast : ℤ
deriving DecidableEq

/-- utils.duration: stop minus start of a period. -/
def duration (period : ℤ × ℤ) : ℤ := period.2 - period.1

/-- utils.total_duration: sum of the durations of a list of periods. -/
def total_duration (periods : List (ℤ × ℤ)) : ℤ := (periods.map duration).sum

/-- utils.next_datetime_with_time: current.replace(hour=h, minute=m)
keeps the calendar date and the sub-minute part of current; when the
result is not strictly after current, one day is added.  In the seconds
model the date part of t is t - t % 86400 and its sub-minute part is
t % 60. -/
def next_datetime_with_time (current : ℤ) (hour minute : ℤ) : ℤ :=
  let this_time_same_day :=
    current - current % 86400 + hour * 3600 + minute * 60 + current % 60
  if this_time_same_day ≤ current then this_time_same_day + 86400
  else this_time_same_day

/-- schedule.off_peak_and_peak_periods: split [plug_in, ready_by) into
off-peak and peak period lists for a single daily off-peak window given
by its wall-clock boundaries. -/
def off_peak_and_peak_periods (plug_in ready_by : ℤ)
    (off_peak_start off_peak_end : ℤ × ℤ) :
    List (ℤ × ℤ) × List (ℤ × ℤ) :=
  let next_off_peak_start :=
    next_datetime_with_time plug_in off_peak_start.1 off_peak_start.2
  let next_off_peak_end :=
    next_datetime_with_time plug_in off_peak_end.1 off_peak_end.2
  if next_off_peak_start = next_off_peak_end then
    ([], [(plug_in, ready_by)])
  else if next_off_peak_start < next_off_peak_end then
    if next_off_peak_start < ready_by then
      if next_off_peak_end < ready_by then
        ([(next_off_peak_start, next_off_peak_end)],
         [(plug_in, next_off_peak_start), (next_off_peak_end, ready_by)])
      else
        ([(next_off_peak_start, ready_by)], [(plug_in, next_off_peak_start)])
    else
      ([], [(plug_in, ready_by)])
  else
    if next_off_peak_start < ready_by then
      ([(plug_in, next_off_peak_end), (next_off_peak_start, ready_by)],
       [(next_off_peak_end, next_off_peak_start)])
    else if next_off_peak_end < ready_by then
      ([(plug_in, next_off_peak_end)], [(next_off_peak_end, ready_by)])
    else
      ([(plug_in, ready_by)], [(plug_in, ready_by)])

/-- timedelta(weeks=1) in seconds. -/
def shift_to_forecast : ℤ := 7 * 86400

/-- One element of the co2_forecasts comprehension in optimize_co2: the
shift-and-clip of one measure against one candidate period, kept only
when the shifted measure meets the period. -/
def clip_forecast (co2 : CO2Measure) (period : ℤ × ℤ) : Option CO2Forecast :=
  if co2.co2_from + shift_to_forecast ≤ period.2 ∧
      period.1 ≤ co2.co2_to + shift_to_forecast then
    some ⟨max (co2.co2_from + shift_to_forecast) period.1,
          min (co2.co2_to + shift_to_forecast) period.2,
          co2.intensity⟩
  else none

/-- The full co2_forecasts list comprehension of optimize_co2: measures
in the outer loop, candidate periods in the inner loop. -/
def co2_forecasts_of (co2_measures : List CO2Measure)
    (periods : List (ℤ × ℤ)) : List CO2Forecast :=
  co2_measures.flatMap fun co2 => periods.filterMap (clip_forecast co2)

/-- The selection loop of optimize_co2 (its for loop over the sorted
entries): stop once the remaining charge time is spent; take a whole
entry when its duration is strictly below the remaining need, otherwise
a prefix of it of exactly the remaining length; in both branches the
remaining need then decreases by the whole entry duration. -/
def charge_selection (remaining : ℤ) : List CO2Forecast → List (ℤ × ℤ)
  | [] => []
  | co2 :: rest =>
    if remaining ≤ 0 then []
    else
      (if duration (co2.fcst_from, co2.fcst_to) < remaining then
        (co2.fcst_from, co2.fcst_to)
       else (co2.fcst_from, co2.fcst_from + remaining)) ::
        charge_selection (remaining - duration (co2.fcst_from, co2.fcst_to)) rest

/-- schedule.simplify_periods: sort the periods by start.  Python sorted
is a stable sort; insertionSort on this total preorder is the matching
stable sort. -/
def simplify_periods (periods : List (ℤ × ℤ)) : List (ℤ × ℤ) :=
  List.insertionSort (fun p q => p.1 ≤ q.1) periods

/-- The stable sort of the clipped entries by ascending forecast value. -/
def sorted_co2_forecasts (co2_measures : List CO2Measure)
    (periods : List (ℤ × ℤ)) : List CO2Forecast :=
  List.insertionSort (fun a b => a.forecast ≤ b.forecast)
    (co2_forecasts_of co2_measures periods)

/-- schedule.optimize_co2. -/
def optimize_co2 (periods : List (ℤ × ℤ)) (charge_time : ℤ)
    (co2_measures : List CO2Measure) : List (ℤ × ℤ) :=
  if total_duration periods ≤ charge_time then periods
  else
    simplify_periods
      (charge_selection charge_time (sorted_co2_forecasts co2_measures periods))

/-- The charging_periods list that schedule builds before its final
simplify_periods (in the short-circuit case, the single returned pair). -/
def charging_periods (ready_by : ℤ × ℤ) (charge_minutes : ℤ) (plug_in : ℤ)
    (off_peak_start off_peak_end : ℤ × ℤ)
    (co2_measures : List CO2Measure) : List (ℤ × ℤ) :=
  let ready_by_datetime := next_datetime_with_time plug_in ready_by.1 ready_by.2
  let charge_time := charge_minutes * 60
  if ready_by_datetime - plug_in ≤ charge_time then
    [(plug_in, ready_by_datetime)]
  else
    let parts :=
      off_peak_and_peak_periods plug_in ready_by_datetime off_peak_start off_peak_end
    if charge_time ≤ total_duration parts.1 then
      optimize_co2 parts.1 charge_time co2_measures
    else
      parts.1 ++
        optimize_co2 parts.2 (charge_time - total_duration parts.1) co2_measures

/-- schedule.schedule: charge_minutes is the integer minute count the
source turns into timedelta(minutes=...); the external load_co2_measures
file read is modelled by the co2_measures argument. -/
def schedule (ready_by : ℤ × ℤ) (charge_minutes : ℤ) (plug_in : ℤ)
    (off_peak_start off_peak_end : ℤ × ℤ)
    (co2_measures : List CO2Measure) : List (ℤ × ℤ) :=
  let ready_by_datetime := next_datetime_with_time plug_in ready_by.1 ready_by.2
  if ready_by_datetime - plug_in ≤ charge_minutes * 60 then
    [(plug_in, ready_by_datetime)]
  else
    simplify_periods
      (charging_periods ready_by charge_minutes plug_in
        off_peak_start off_peak_end co2_measures)

/-- Total length of the shifted-and-clipped forecast entries for given
measures and candidate periods (overlaps counted with multiplicity). -/
def clipped_total (co2_measures : List CO2Measure)
    (periods : List (ℤ × ℤ)) : ℤ :=
  ((co2_forecasts_of co2_measures periods).map
    fun f => f.fcst_to - f.fcst_from).sum

/-- Membership of an instant in the union of a list of half-open periods. -/
def mem_periods (periods : List (ℤ × ℤ)) (x : ℤ) : Prop :=
  ∃ p ∈ periods, p.1 ≤ x ∧ x < p.2

/-- Two half-open periods share no instant. -/
def periods_disjoint (p q : ℤ × ℤ) : Prop := p.2 ≤ q.1 ∨ q.2 ≤ p.1

instance (p q : ℤ × ℤ) : Decidable (periods_disjoint p q) := by
  unfold periods_disjoint; infer_instance

/-- Wall-clock hour of an instant in the seconds model. -/
def wall_hour (t : ℤ) : ℤ := t % 86400 / 3600

/-- Wall-clock minute of an instant in the seconds model. -/
def wall_minute (t : ℤ) : ℤ := t % 86400 % 3600 / 60

/-- The greedy consumption step exactly as the specification words it:
walk the entries in intensity order while the remaining need is positive;
take an entry whole when its duration is strictly below the remaining
need, otherwise take a prefix of it of exactly the remaining duration and
stop. -/
def spec_greedy (remaining : ℤ) : List CO2Forecast → List (ℤ × ℤ)
  | [] => []
  | co2 :: rest =>
    if remaining ≤ 0 then []
    else if co2.fcst_to - co2.fcst_from < remaining then
      (co2.fcst_from, co2.fcst_to) ::
        spec_greedy (remaining - (co2.fcst_to - co2.fcst_from)) rest
    else [(co2.fcst_from, co2.fcst_from + remaining)]

/-! ### Helper lemmas about the embedded functions -/

lemma next_gt (t hour minute : ℤ) (hh : 0 ≤ hour) (hm : 0 ≤ minute) :
    t < next_datetime_with_time t hour minute := by
  simp only [next_datetime_with_time]
  split_ifs <;> omega

lemma total_duration_nil : total_duration [] = 0 := rfl

lemma total_duration_cons (q : ℤ × ℤ) (l : List (ℤ × ℤ)) :
    total_duration (q :: l) = (q.2 - q.1) + total_duration l := by
  simp [total_duration, duration]

lemma total_duration_append (l₁ l₂ : List (ℤ × ℤ)) :
    total_duration (l₁ ++ l₂) = total_duration l₁ + total_duration l₂ := by
  simp [total_duration]

lemma total_duration_perm {l₁ l₂ : List (ℤ × ℤ)} (h : l₁.Perm l₂) :
    total_duration l₁ = total_duration l₂ :=
  (h.map duration).sum_eq

lemma mem_simplify_periods {q : ℤ × ℤ} {l : List (ℤ × ℤ)} :
    q ∈ simplify_periods l ↔ q ∈ l :=
  (List.perm_insertionSort _ l).mem_iff

lemma total_duration_simplify (l : List (ℤ × ℤ)) :
    total_duration (simplify_periods l) = total_duration l :=
  total_duration_perm (List.perm_insertionSort _ l)

lemma clip_forecast_some {co2 : CO2Measure} {q : ℤ × ℤ} {f : CO2Forecast}
    (h : clip_forecast co2 q = some f) :
    q.1 ≤ f.fcst_from ∧ f.fcst_to ≤ q.2 ∧
      (co2.co2_from ≤ co2.co2_to → q.1 ≤ q.2 → f.fcst_from ≤ f.fcst_to) := by
  simp only [clip_forecast] at h
  split_ifs at h with hc
  · rw [Option.some_inj] at h
    subst h
    refine ⟨le_max_right _ _, min_le_right _ _, fun h1 h2 => ?_⟩
    simp only
    omega

lemma mem_co2_forecasts_of {ms : List CO2Measure} {periods : List (ℤ × ℤ)}
    {f : CO2Forecast} (h : f ∈ co2_forecasts_of ms periods) :
    ∃ co2 ∈ ms, ∃ q ∈ periods, clip_forecast co2 q = some f := by
  simp only [co2_forecasts_of, List.mem_flatMap, List.mem_filterMap] at h
  exact h

lemma sorted_co2_forecasts_mem {ms : List CO2Measure} {periods : List (ℤ × ℤ)}
    {f : CO2Forecast} :
    f ∈ sorted_co2_forecasts ms periods ↔ f ∈ co2_forecasts_of ms periods :=
  (List.perm_insertionSort _ _).mem_iff

lemma sorted_co2_forecasts_wf {ms : List CO2Measure} {periods : List (ℤ × ℤ)}
    (hwfp : ∀ q ∈ periods, q.1 ≤ q.2)
    (hwfm : ∀ c ∈ ms, c.co2_from ≤ c.co2_to) :
    ∀ f ∈ sorted_co2_forecasts ms periods, f.fcst_from ≤ f.fcst_to := by
  intro f hf
  obtain ⟨co2, hco2, q, hq, hclip⟩ :=
    mem_co2_forecasts_of (sorted_co2_forecasts_mem.mp hf)
  exact (clip_forecast_some hclip).2.2 (hwfm co2 hco2) (hwfp q hq)

lemma sorted_co2_forecasts_sum (ms : List CO2Measure) (periods : List (ℤ × ℤ)) :
    ((sorted_co2_forecasts ms periods).map fun f => f.fcst_to - f.fcst_from).sum =
      clipped_total ms periods :=
  ((List.perm_insertionSort _ _).map _).sum_eq

lemma charge_selection_nonpos {remaining : ℤ} (h : remaining ≤ 0)
    (l : List CO2Forecast) : charge_selection remaining l = [] := by
  cases l <;> simp [charge_selection, h]

lemma charge_selection_total (fs : List CO2Forecast) :
    (∀ f ∈ fs, f.fcst_from ≤ f.fcst_to) →
    ∀ remaining : ℤ, 0 ≤ remaining →
      total_duration (charge_selection remaining fs) =
        min remaining ((fs.map fun f => f.fcst_to - f.fcst_from).sum) := by
  induction fs with
  | nil =>
    intro _ rem hrem
    simp only [charge_selection, total_duration, List.map_nil, List.sum_nil]
    omega
  | cons f rest ih =>
    intro hwf rem hrem
    have hf : f.fcst_from ≤ f.fcst_to := hwf f (List.mem_cons_self f rest)
    have hrest : ∀ g ∈ rest, g.fcst_from ≤ g.fcst_to :=
      fun g hg => hwf g (List.mem_cons_of_mem f hg)
    have hS : 0 ≤ (rest.map fun g => g.fcst_to - g.fcst_from).sum := by
      refine List.sum_nonneg ?_
      intro x hx
      simp only [List.mem_map] at hx
      obtain ⟨g, hg, rfl⟩ := hx
      have := hrest g hg
      omega
    simp only [charge_selection]
    by_cases h0 : rem ≤ 0
    · rw [if_pos h0]
      simp only [total_duration, List.map_nil, List.sum_nil, List.map_cons,
        List.sum_cons]
      omega
    · rw [if_neg h0]
      by_cases hd : duration (f.fcst_from, f.fcst_to) < rem
      · rw [if_pos hd, total_duration_cons,
          ih hrest (rem - duration (f.fcst_from, f.fcst_to))
            (by simp only [duration] at hd ⊢; omega)]
        simp only [duration, List.map_cons, List.sum_cons] at hd ⊢
        omega
      · rw [if_neg hd, charge_selection_nonpos
          (by simp only [duration] at hd ⊢; omega) rest, total_duration_cons]
        simp only [duration, total_duration, List.map_nil, List.sum_nil,
          List.map_cons, List.sum_cons] at hd ⊢
        omega

lemma charge_selection_mem (fs : List CO2Forecast) :
    ∀ (remaining : ℤ) (q : ℤ × ℤ), q ∈ charge_selection remaining fs →
      ∃ f ∈ fs, q.1 = f.fcst_from ∧ q.2 ≤ f.fcst_to ∧
        (f.fcst_from ≤ f.fcst_to → q.1 ≤ q.2) := by
  induction fs with
  | nil => intro rem q hq; simp [charge_selection] at hq
  | cons f rest ih =>
    intro rem q hq
    simp only [charge_selection] at hq
    split_ifs at hq with h0 hd
    · simp at hq
    · rcases List.mem_cons.mp hq with rfl | hq2
      · exact ⟨f, List.mem_cons_self f rest, rfl, le_refl _, fun h => h⟩
      · obtain ⟨g, hg, hh⟩ := ih _ _ hq2
        exact ⟨g, List.mem_cons_of_mem f hg, hh⟩
    · rcases List.mem_cons.mp hq with rfl | hq2
      · refine ⟨f, List.mem_cons_self f rest, rfl, ?_, fun _ => ?_⟩ <;>
          simp only [duration] at hd h0 ⊢ <;> omega
      · obtain ⟨g, hg, hh⟩ := ih _ _ hq2
        exact ⟨g, List.mem_cons_of_mem f hg, hh⟩

lemma charge_selection_eq_spec_greedy (fs : List CO2Forecast) :
    ∀ remaining : ℤ, charge_selection remaining fs = spec_greedy remaining fs := by
  induction fs with
  | nil => intro rem; rfl
  | cons f rest ih =>
    intro rem
    simp only [charge_selection, spec_greedy, duration]
    split_ifs with h0 hd
    · rfl
    · rw [ih]
    · rw [charge_selection_nonpos (by omega) rest]

lemma optimize_co2_total (periods : List (ℤ × ℤ)) (ct : ℤ) (ms : List CO2Measure)
    (hwfp : ∀ q ∈ periods, q.1 ≤ q.2) (hwfm : ∀ c ∈ ms, c.co2_from ≤ c.co2_to)
    (hct : 0 ≤ ct) :
    total_duration (optimize_co2 periods ct ms) =
      if total_duration periods ≤ ct then total_duration periods
      else min ct (clipped_total ms periods) := by
  unfold optimize_co2
  split_ifs with h
  · rfl
  · rw [total_duration_simplify,
      charge_selection_total _ (sorted_co2_forecasts_wf hwfp hwfm) ct hct,
      sorted_co2_forecasts_sum]

lemma optimize_co2_mem (periods : List (ℤ × ℤ)) (ct : ℤ) (ms : List CO2Measure) :
    ∀ q ∈ optimize_co2 periods ct ms, ∃ c ∈ periods, c.1 ≤ q.1 ∧ q.2 ≤ c.2 := by
  intro q hq
  unfold optimize_co2 at hq
  split_ifs at hq with h
  · exact ⟨q, hq, le_refl _, le_refl _⟩
  · obtain ⟨f, hf, h1, h2, _⟩ :=
      charge_selection_mem _ _ _ (mem_simplify_periods.mp hq)
    obtain ⟨co2, hco2, c, hc, hclip⟩ :=
      mem_co2_forecasts_of (sorted_co2_forecasts_mem.mp hf)
    obtain ⟨hc1, hc2, _⟩ := clip_forecast_some hclip
    exact ⟨c, hc, by omega, by omega⟩

lemma optimize_co2_wf (periods : List (ℤ × ℤ)) (ct : ℤ) (ms : List CO2Measure)
    (hwfp : ∀ q ∈ periods, q.1 ≤ q.2)
    (hwfm : ∀ c ∈ ms, c.co2_from ≤ c.co2_to) :
    ∀ q ∈ optimize_co2 periods ct ms, q.1 ≤ q.2 := by
  intro q hq
  unfold optimize_co2 at hq
  split_ifs at hq with h
  · exact hwfp q hq
  · obtain ⟨f, hf, h1, h2, h3⟩ :=
      charge_selection_mem _ _ _ (mem_simplify_periods.mp hq)
    exact h3 (sorted_co2_forecasts_wf hwfp hwfm f hf)

lemma partition_union (p r : ℤ) (ops ope : ℤ × ℤ)
    (h1 : 0 ≤ ops.1) (h2 : 0 ≤ ops.2) (h3 : 0 ≤ ope.1) (h4 : 0 ≤ ope.2)
    (hpr : p < r) (x : ℤ) :
    (mem_periods (off_peak_and_peak_periods p r ops ope).1 x ∨
      mem_periods (off_peak_and_peak_periods p r ops ope).2 x) ↔
      p ≤ x ∧ x < r := by
  have hs := next_gt p ops.1 ops.2 h1 h2
  have he := next_gt p ope.1 ope.2 h3 h4
  simp only [off_peak_and_peak_periods]
  split_ifs <;> simp [mem_periods] <;> omega

lemma partition_bounds (p r : ℤ) (ops ope : ℤ × ℤ)
    (h1 : 0 ≤ ops.1) (h2 : 0 ≤ ops.2) (h3 : 0 ≤ ope.1) (h4 : 0 ≤ ope.2)
    (hpr : p < r) :
    ∀ q ∈ (off_peak_and_peak_periods p r ops ope).1 ++
        (off_peak_and_peak_periods p r ops ope).2,
      p ≤ q.1 ∧ q.1 < q.2 ∧ q.2 ≤ r := by
  have hs := next_gt p ops.1 ops.2 h1 h2
  have he := next_gt p ope.1 ope.2 h3 h4
  simp only [off_peak_and_peak_periods]
  split_ifs <;>
    (intro q hq
     obtain ⟨qa, qb⟩ := q
     simp [Prod.mk.injEq] at hq ⊢
     omega)

lemma partition_total (p r : ℤ) (ops ope : ℤ × ℤ)
    (h1 : 0 ≤ ops.1) (h2 : 0 ≤ ops.2) (h3 : 0 ≤ ope.1) (h4 : 0 ≤ ope.2)
    (hpr : p < r) :
    total_duration (off_peak_and_peak_periods p r ops ope).1 ≤ r - p ∧
    (total_duration (off_peak_and_peak_periods p r ops ope).1 = r - p →
      (off_peak_and_peak_periods p r ops ope).1 = [(p, r)]) ∧
    (total_duration (off_peak_and_peak_periods p r ops ope).1 +
        total_duration (off_peak_and_peak_periods p r ops ope).2 = r - p ∨
      ((off_peak_and_peak_periods p r ops ope).1 = [(p, r)] ∧
        (off_peak_and_peak_periods p r ops ope).2 = [(p, r)])) := by
  have hs := next_gt p ops.1 ops.2 h1 h2
  have he := next_gt p ope.1 ope.2 h3 h4
  simp only [off_peak_and_peak_periods]
  split_ifs <;> simp [total_duration, duration, Prod.mk.injEq] <;> omega

lemma partition_disjoint_or_full (p r : ℤ) (ops ope : ℤ × ℤ)
    (h1 : 0 ≤ ops.1) (h2 : 0 ≤ ops.2) (h3 : 0 ≤ ope.1) (h4 : 0 ≤ ope.2)
    (hpr : p < r) :
    List.Pairwise periods_disjoint
        ((off_peak_and_peak_periods p r ops ope).1 ++
          (off_peak_and_peak_periods p r ops ope).2) ∨
      ((off_peak_and_peak_periods p r ops ope).1 = [(p, r)] ∧
        (off_peak_and_peak_periods p r ops ope).2 = [(p, r)]) := by
  have hs := next_gt p ops.1 ops.2 h1 h2
  have he := next_gt p ope.1 ope.2 h3 h4
  simp only [off_peak_and_peak_periods]
  split_ifs <;>
    first
      | (right; exact ⟨rfl, rfl⟩)
      | (left; simp [periods_disjoint]; omega)
      | (left; simp [periods_disjoint])

/-! ### Claim theorems -/

/-- Claim C1 (amended): when the plug-in-to-deadline window is not longer
than the requested charge duration, schedule returns exactly the single
period from plug-in to deadline, the exact-equality boundary included.
Otherwise the total duration of the schedule equals the requested charge
duration provided the shifted-and-clipped forecast coverage available to
the allocator call actually made is at least the amount delegated to it
(the original claim fails without that proviso: with an empty or
non-overlapping forecast series the allocator returns an empty list). -/
theorem claim_C1_schedule_total_amended (rb : ℤ × ℤ) (cm p : ℤ)
    (ops ope : ℤ × ℤ) (ms : List CO2Measure) (deadline ct : ℤ)
    (hrb1 : 0 ≤ rb.1) (hrb2 : 0 ≤ rb.2)
    (hops1 : 0 ≤ ops.1) (hops2 : 0 ≤ ops.2)
    (hope1 : 0 ≤ ope.1) (hope2 : 0 ≤ ope.2)
    (hwfm : ∀ c ∈ ms, c.co2_from ≤ c.co2_to)
    (hdl : deadline = next_datetime_with_time p rb.1 rb.2)
    (hct : ct = cm * 60) (hcm : 0 ≤ cm) :
    (deadline - p ≤ ct → schedule rb cm p ops ope ms = [(p, deadline)]) ∧
    (ct < deadline - p →
      ((ct ≤ total_duration (off_peak_and_peak_periods p deadline ops ope).1 →
        (total_duration (off_peak_and_peak_periods p deadline ops ope).1 = ct ∨
          ct ≤ clipped_total ms (off_peak_and_peak_periods p deadline ops ope).1) →
        total_duration (schedule rb cm p ops ope ms) = ct) ∧
      (total_duration (off_peak_and_peak_periods p deadline ops ope).1 < ct →
        ct - total_duration (off_peak_and_peak_periods p deadline ops ope).1 ≤
          clipped_total ms (off_peak_and_peak_periods p deadline ops ope).2 →
        total_duration (schedule rb cm p ops ope ms) = ct))) := by
  subst hdl hct
  constructor
  · intro hshort
    simp only [schedule]
    rw [if_pos hshort]
  · intro hlong
    have hnshort : ¬ (next_datetime_with_time p rb.1 rb.2 - p ≤ cm * 60) := by omega
    have hpr : p < next_datetime_with_time p rb.1 rb.2 := next_gt p rb.1 rb.2 hrb1 hrb2
    have hb := partition_bounds p (next_datetime_with_time p rb.1 rb.2) ops ope
      hops1 hops2 hope1 hope2 hpr
    have hwfOff : ∀ q ∈ (off_peak_and_peak_periods p
        (next_datetime_with_time p rb.1 rb.2) ops ope).1, q.1 ≤ q.2 :=
      fun q hq => by have := hb q (List.mem_append_left _ hq); omega
    have hwfPeak : ∀ q ∈ (off_peak_and_peak_periods p
        (next_datetime_with_time p rb.1 rb.2) ops ope).2, q.1 ≤ q.2 :=
      fun q hq => by have := hb q (List.mem_append_right _ hq); omega
    have htot := partition_total p (next_datetime_with_time p rb.1 rb.2) ops ope
      hops1 hops2 hope1 hope2 hpr
    simp only [schedule, charging_periods, if_neg hnshort]
    rw [total_duration_simplify]
    constructor
    · intro hcap hclip
      rw [if_pos hcap,
        optimize_co2_total _ _ _ hwfOff hwfm (by omega)]
      split_ifs with h2 <;> omega
    · intro hcap hclip
      rw [if_neg (by omega), total_duration_append,
        optimize_co2_total _ _ _ hwfPeak hwfm (by omega)]
      have hpeak_gt : cm * 60 -
          total_duration (off_peak_and_peak_periods p
            (next_datetime_with_time p rb.1 rb.2) ops ope).1 <
          total_duration (off_peak_and_peak_periods p
            (next_datetime_with_time p rb.1 rb.2) ops ope).2 := by
        rcases htot.2.2 with hsum | ⟨hoff, hpeak⟩
        · omega
        · rw [hoff] at hcap
          have : total_duration [(p, next_datetime_with_time p rb.1 rb.2)] =
              next_datetime_with_time p rb.1 rb.2 - p := by
            simp [total_duration, duration]
          omega
      rw [if_neg (by omega)]
      omega

/-- Claim C1 counterexample: plug-in 0, readyBy 01:00 (deadline 3600),
chargeDuration 30 min, off-peak 00:10 to 00:50, empty forecast series:
the window (3600 s) strictly exceeds the requested 1800 s, yet schedule
returns the empty list, whose total duration is not the requested one. -/
theorem claim_C1_counterexample :
    30 * 60 < next_datetime_with_time 0 1 0 - 0 ∧
    schedule (1, 0) 30 0 (0, 10) (0, 50) [] = [] ∧
    total_duration (schedule (1, 0) 30 0 (0, 10) (0, 50) []) ≠ 30 * 60 := by
  decide

/-- Claim C1 witness: with one forecast covering the off-peak period the
amended theorem yields a schedule of exactly the requested duration. -/
theorem claim_C1_witness :
    total_duration (schedule (1, 0) 30 0 (0, 10) (0, 50)
      [⟨-604200, -601800, 5⟩]) = 30 * 60 :=
  ((claim_C1_schedule_total_amended (1, 0) 30 0 (0, 10) (0, 50)
      [⟨-604200, -601800, 5⟩] 3600 (30 * 60) (by decide) (by decide) (by decide)
      (by decide) (by decide) (by decide) (by decide) (by decide) (by decide)
      (by decide)).2 (by decide)).1 (by decide) (by decide)

/-- Claim C2 (amended): for plugIn strictly before readyBy, the union of
the two lists returned by the partitioner is exactly the set of instants
of the half-open window, and the periods across both lists are pairwise
non-overlapping except in the wrapped fully-covering branch, in which
both lists are the same single period covering the whole window. -/
theorem claim_C2_partition_amended (p r : ℤ) (ops ope : ℤ × ℤ)
    (h1 : 0 ≤ ops.1) (h2 : 0 ≤ ops.2) (h3 : 0 ≤ ope.1) (h4 : 0 ≤ ope.2)
    (hpr : p < r) :
    (∀ x : ℤ,
      (mem_periods (off_peak_and_peak_periods p r ops ope).1 x ∨
        mem_periods (off_peak_and_peak_periods p r ops ope).2 x) ↔
        p ≤ x ∧ x < r) ∧
    (List.Pairwise periods_disjoint
        ((off_peak_and_peak_periods p r ops ope).1 ++
          (off_peak_and_peak_periods p r ops ope).2) ∨
      ((off_peak_and_peak_periods p r ops ope).1 = [(p, r)] ∧
        (off_peak_and_peak_periods p r ops ope).2 = [(p, r)])) :=
  ⟨partition_union p r ops ope h1 h2 h3 h4 hpr,
   partition_disjoint_or_full p r ops ope h1 h2 h3 h4 hpr⟩

/-- Claim C2 counterexample: plug-in 01:00:00, readyBy 05:00:00 of the
same day, off-peak 00:30 to 07:30 (a wrapped window covering the whole
charge window): both returned lists are the same non-degenerate period,
so the returned periods are not pairwise non-overlapping. -/
theorem claim_C2_counterexample :
    (3600 : ℤ) < 18000 ∧
    ¬ List.Pairwise periods_disjoint
        ((off_peak_and_peak_periods 3600 18000 (0, 30) (7, 30)).1 ++
          (off_peak_and_peak_periods 3600 18000 (0, 30) (7, 30)).2) := by
  decide

/-- Claim C2 witness: the amended theorem applied at a concrete window. -/
theorem claim_C2_witness :
    (mem_periods (off_peak_and_peak_periods 0 3600 (0, 10) (0, 50)).1 100 ∨
      mem_periods (off_peak_and_peak_periods 0 3600 (0, 10) (0, 50)).2 100) ↔
      (0 : ℤ) ≤ 100 ∧ (100 : ℤ) < 3600 :=
  (claim_C2_partition_amended 0 3600 (0, 10) (0, 50) (by decide) (by decide)
    (by decide) (by decide) (by decide)).1 100

/-- Claim C3 (amended): the total duration returned by the allocator is
always at most the requested duration, and equals it whenever the total
candidate duration is at least the requested one, provided additionally
that in the strict-excess case the shifted-and-clipped forecast coverage
is at least the requested duration (the original claim fails without
that proviso, for example on an empty forecast series). -/
theorem claim_C3_allocator_size_amended (periods : List (ℤ × ℤ)) (ct : ℤ)
    (ms : List CO2Measure)
    (hwfp : ∀ q ∈ periods, q.1 ≤ q.2)
    (hwfm : ∀ c ∈ ms, c.co2_from ≤ c.co2_to) (hct : 0 ≤ ct) :
    total_duration (optimize_co2 periods ct ms) ≤ ct ∧
    (ct ≤ total_duration periods →
      (total_duration periods ≤ ct ∨ ct ≤ clipped_total ms periods) →
      total_duration (optimize_co2 periods ct ms) = ct) := by
  have h := optimize_co2_total periods ct ms hwfp hwfm hct
  constructor
  · rw [h]; split_ifs with h2 <;> omega
  · intro hge hcov
    rw [h]; split_ifs with h2 <;> omega

/-- Claim C3 counterexample: one candidate of duration 200, requested
duration 100, empty forecast series: the candidates suffice but the
allocator returns a schedule of total duration 0, not 100. -/
theorem claim_C3_counterexample :
    (0 : ℤ) ≤ 100 ∧ (100 : ℤ) ≤ total_duration [((0 : ℤ), 200)] ∧
    total_duration (optimize_co2 [((0 : ℤ), 200)] 100 []) ≠ 100 := by
  decide

/-- Claim C3 witness: with sufficient forecast coverage the amended
theorem yields an allocation of exactly the requested duration. -/
theorem claim_C3_witness :
    total_duration (optimize_co2 [((0 : ℤ), 200)] 100
      [⟨-604800, -604500, 5⟩]) = 100 :=
  (claim_C3_allocator_size_amended [((0 : ℤ), 200)] 100 [⟨-604800, -604500, 5⟩]
    (by decide) (by decide) (by decide)).2 (by decide) (by decide)

/-- Claim C4 (amended): next_datetime_with_time returns the earliest
instant strictly after the reference whose wall-clock hour and minute
equal the requested time and whose sub-minute part equals that of the
reference instant (the source keeps the seconds of the reference, so the
original claim, and its 07:00:00 deadline for the 18:42:12 reference,
fail whenever the reference has a non-zero sub-minute part). -/
theorem claim_C4_next_occurrence_amended (t hour minute : ℤ)
    (hh0 : 0 ≤ hour) (hh : hour < 24) (hm0 : 0 ≤ minute) (hm : minute < 60) :
    t < next_datetime_with_time t hour minute ∧
    wall_hour (next_datetime_with_time t hour minute) = hour ∧
    wall_minute (next_datetime_with_time t hour minute) = minute ∧
    next_datetime_with_time t hour minute % 60 = t % 60 ∧
    ∀ u : ℤ, t < u → wall_hour u = hour → wall_minute u = minute →
      u % 60 = t % 60 → next_datetime_with_time t hour minute ≤ u := by
  simp only [next_datetime_with_time, wall_hour, wall_minute]
  split_ifs with h
  · refine ⟨by omega, by omega, by omega, by omega, fun u hu h1 h2 h3 => by omega⟩
  · refine ⟨by omega, by omega, by omega, by omega, fun u hu h1 h2 h3 => by omega⟩

/-- Claim C4 counterexample: for the reference 2019-10-04T18:42:12Z
(1570214532 s since the Unix epoch) and wall-clock time 07:00 the code
returns 2019-10-05T07:00:12Z (1570258812), not the claimed deadline
2019-10-05T07:00:00Z (1570258800). -/
theorem claim_C4_counterexample :
    next_datetime_with_time 1570214532 7 0 = 1570258812 ∧
    next_datetime_with_time 1570214532 7 0 ≠ 1570258800 := by
  decide

/-- Claim C4 witness: the amended theorem applied at the scenario
reference instant. -/
theorem claim_C4_witness :
    (1570214532 : ℤ) < next_datetime_with_time 1570214532 7 0 :=
  (claim_C4_next_occurrence_amended 1570214532 7 0 (by decide) (by decide)
    (by decide) (by decide)).1

/-- Claim C5: whenever the total candidate duration strictly exceeds the
requested duration, the allocator returns periods totalling exactly the
minimum of the requested duration and the total duration of the
shifted-and-clipped forecast sub-periods. -/
theorem claim_C5_allocator_exact_total (periods : List (ℤ × ℤ)) (ct : ℤ)
    (ms : List CO2Measure)
    (hwfp : ∀ q ∈ periods, q.1 ≤ q.2)
    (hwfm : ∀ c ∈ ms, c.co2_from ≤ c.co2_to)
    (hct : 0 ≤ ct) (hex : ct < total_duration periods) :
    total_duration (optimize_co2 periods ct ms) =
      min ct (clipped_total ms periods) := by
  rw [optimize_co2_total periods ct ms hwfp hwfm hct, if_neg (by omega)]

/-- Claim C5 witness: the theorem applied at a concrete input where the
clipped coverage (100 s) is below the requested duration (150 s). -/
theorem claim_C5_witness :
    total_duration (optimize_co2 [((0 : ℤ), 200)] 150 [⟨-604800, -604700, 5⟩]) =
      min 150 (clipped_total [⟨-604800, -604700, 5⟩] [((0 : ℤ), 200)]) :=
  claim_C5_allocator_exact_total [((0 : ℤ), 200)] 150 [⟨-604800, -604700, 5⟩]
    (by decide) (by decide) (by decide) (by decide)

/-- Claim C6 (amended): every period emitted by the partitioner has
start strictly before stop, and every period emitted by the allocator or
by schedule has start at most stop; strictness fails for the allocator,
which emits a zero-width period when a shifted forecast exactly touches
a candidate boundary. -/
theorem claim_C6_nondegenerate_amended :
    (∀ (p r : ℤ) (ops ope : ℤ × ℤ), 0 ≤ ops.1 → 0 ≤ ops.2 → 0 ≤ ope.1 →
      0 ≤ ope.2 → p < r →
      ∀ q ∈ (off_peak_and_peak_periods p r ops ope).1 ++
          (off_peak_and_peak_periods p r ops ope).2, q.1 < q.2) ∧
    (∀ (periods : List (ℤ × ℤ)) (ct : ℤ) (ms : List CO2Measure),
      (∀ q ∈ periods, q.1 ≤ q.2) → (∀ c ∈ ms, c.co2_from ≤ c.co2_to) →
      ∀ q ∈ optimize_co2 periods ct ms, q.1 ≤ q.2) ∧
    (∀ (rb : ℤ × ℤ) (cm p : ℤ) (ops ope : ℤ × ℤ) (ms : List CO2Measure),
      0 ≤ rb.1 → 0 ≤ rb.2 → 0 ≤ ops.1 → 0 ≤ ops.2 → 0 ≤ ope.1 → 0 ≤ ope.2 →
      (∀ c ∈ ms, c.co2_from ≤ c.co2_to) →
      ∀ q ∈ schedule rb cm p ops ope ms, q.1 ≤ q.2) := by
  refine ⟨?_, ?_, ?_⟩
  · intro p r ops ope h1 h2 h3 h4 hpr q hq
    exact (partition_bounds p r ops ope h1 h2 h3 h4 hpr q hq).2.1
  · intro periods ct ms hwfp hwfm q hq
    exact optimize_co2_wf periods ct ms hwfp hwfm q hq
  · intro rb cm p ops ope ms hrb1 hrb2 h1 h2 h3 h4 hwfm q hq
    have hpr : p < next_datetime_with_time p rb.1 rb.2 :=
      next_gt p rb.1 rb.2 hrb1 hrb2
    have hb := partition_bounds p (next_datetime_with_time p rb.1 rb.2) ops ope
      h1 h2 h3 h4 hpr
    have hwfOff : ∀ q ∈ (off_peak_and_peak_periods p
        (next_datetime_with_time p rb.1 rb.2) ops ope).1, q.1 ≤ q.2 :=
      fun q hq => by have := hb q (List.mem_append_left _ hq); omega
    have hwfPeak : ∀ q ∈ (off_peak_and_peak_periods p
        (next_datetime_with_time p rb.1 rb.2) ops ope).2, q.1 ≤ q.2 :=
      fun q hq => by have := hb q (List.mem_append_right _ hq); omega
    simp only [schedule] at hq
    split_ifs at hq with hshort
    · rcases List.mem_singleton.mp hq with rfl
      simp only
      omega
    · have hq2 := mem_simplify_periods.mp hq
      simp only [charging_periods, if_neg hshort] at hq2
      split_ifs at hq2 with hcap
      · exact optimize_co2_wf _ _ _ hwfOff hwfm q hq2
      · rcases List.mem_append.mp hq2 with hq3 | hq3
        · exact hwfOff q hq3
        · exact optimize_co2_wf _ _ _ hwfPeak hwfm q hq3

/-- Claim C6 counterexample: a forecast whose shifted span exactly
touches the candidate boundary produces a zero-width clipped entry that
the allocator emits verbatim, so not every output period has start
strictly before stop. -/
theorem claim_C6_counterexample :
    ¬ ∀ q ∈ optimize_co2 [((0 : ℤ), 100)] 50 [⟨-604700, -604680, 1⟩],
      q.1 < q.2 := by
  decide

/-- Claim C6 witness: the partitioner conjunct applied at a concrete
window and member period. -/
theorem claim_C6_witness :
    ((600 : ℤ), (3000 : ℤ)).1 < ((600 : ℤ), (3000 : ℤ)).2 :=
  claim_C6_nondegenerate_amended.1 0 3600 (0, 10) (0, 50) (by decide)
    (by decide) (by decide) (by decide) (by decide) (600, 3000) (by decide)

/-- Claim C7: whenever the requested charge duration fits into the
off-peak capacity of the partition of the charge window, every period of
the final schedule is contained in one of the off-peak periods; no peak
time appears in the output. -/
theorem claim_C7_off_peak_first (rb : ℤ × ℤ) (cm p : ℤ) (ops ope : ℤ × ℤ)
    (ms : List CO2Measure)
    (hrb1 : 0 ≤ rb.1) (hrb2 : 0 ≤ rb.2)
    (h1 : 0 ≤ ops.1) (h2 : 0 ≤ ops.2) (h3 : 0 ≤ ope.1) (h4 : 0 ≤ ope.2)
    (hcap : cm * 60 ≤ total_duration
      (off_peak_and_peak_periods p (next_datetime_with_time p rb.1 rb.2)
        ops ope).1) :
    ∀ q ∈ schedule rb cm p ops ope ms,
      ∃ c ∈ (off_peak_and_peak_periods p
          (next_datetime_with_time p rb.1 rb.2) ops ope).1,
        c.1 ≤ q.1 ∧ q.2 ≤ c.2 := by
  have hpr : p < next_datetime_with_time p rb.1 rb.2 :=
    next_gt p rb.1 rb.2 hrb1 hrb2
  have htot := partition_total p (next_datetime_with_time p rb.1 rb.2) ops ope
    h1 h2 h3 h4 hpr
  intro q hq
  simp only [schedule] at hq
  split_ifs at hq with hshort
  · have hfull : (off_peak_and_peak_periods p
        (next_datetime_with_time p rb.1 rb.2) ops ope).1 =
        [(p, next_datetime_with_time p rb.1 rb.2)] :=
      htot.2.1 (by omega)
    rcases List.mem_singleton.mp hq with rfl
    exact ⟨(p, next_datetime_with_time p rb.1 rb.2),
      hfull ▸ List.mem_singleton_self _, le_refl _, le_refl _⟩
  · have hq2 := mem_simplify_periods.mp hq
    simp only [charging_periods, if_neg hshort] at hq2
    rw [if_pos hcap] at hq2
    exact optimize_co2_mem _ _ _ q hq2

/-- Claim C7 witness: the theorem applied at a concrete run whose
off-peak capacity covers the requested duration. -/
theorem claim_C7_witness :
    ∃ c ∈ (off_peak_and_peak_periods 0 (next_datetime_with_time 0 1 0)
        (0, 10) (0, 50)).1,
      c.1 ≤ ((600 : ℤ), (2400 : ℤ)).1 ∧ ((600 : ℤ), (2400 : ℤ)).2 ≤ c.2 :=
  claim_C7_off_peak_first (1, 0) 30 0 (0, 10) (0, 50) [⟨-604200, -601800, 5⟩]
    (by decide) (by decide) (by decide) (by decide) (by decide) (by decide)
    (by decide) (600, 2400) (by decide)

/-- Claim C8: in the optimizing case the clipped entries are consumed in
ascending intensity order, exactly as the greedy step of the
specification describes it: the intensity-sorted entry list is sorted by
forecast value, and the allocator result is the simplify of the
specification greedy applied to that sorted list. -/
theorem claim_C8_greedy_order (periods : List (ℤ × ℤ)) (ct : ℤ)
    (ms : List CO2Measure) (hex : ct < total_duration periods) :
    List.Sorted (fun a b : CO2Forecast => a.forecast ≤ b.forecast)
        (sorted_co2_forecasts ms periods) ∧
    optimize_co2 periods ct ms =
      simplify_periods (spec_greedy ct (sorted_co2_forecasts ms periods)) := by
  constructor
  · haveI : IsTotal CO2Forecast (fun a b => a.forecast ≤ b.forecast) :=
      ⟨fun a b => le_total a.forecast b.forecast⟩
    haveI : IsTrans CO2Forecast (fun a b => a.forecast ≤ b.forecast) :=
      ⟨fun a b c hab hbc => le_trans hab hbc⟩
    exact List.sorted_insertionSort _ _
  · unfold optimize_co2
    rw [if_neg (by omega), charge_selection_eq_spec_greedy]

/-- Claim C8 witness: the theorem applied at a concrete optimizing
input. -/
theorem claim_C8_witness :
    optimize_co2 [((0 : ℤ), 200)] 100 [⟨-604800, -604500, 5⟩] =
      simplify_periods (spec_greedy 100
        (sorted_co2_forecasts [⟨-604800, -604500, 5⟩] [((0 : ℤ), 200)])) :=
  (claim_C8_greedy_order [((0 : ℤ), 200)] 100 [⟨-604800, -604500, 5⟩]
    (by decide)).2

/-- Claim C9: the final schedule is sorted ascending by period start and
is a permutation of the computed charging periods: reordered only, never
merged and never deduplicated. -/
theorem claim_C9_sorted_not_merged (rb : ℤ × ℤ) (cm p : ℤ) (ops ope : ℤ × ℤ)
    (ms : List CO2Measure) :
    List.Sorted (fun a b : ℤ × ℤ => a.1 ≤ b.1) (schedule rb cm p ops ope ms) ∧
    (schedule rb cm p ops ope ms).Perm
      (charging_periods rb cm p ops ope ms) := by
  haveI : IsTotal (ℤ × ℤ) (fun a b : ℤ × ℤ => a.1 ≤ b.1) :=
    ⟨fun a b => le_total a.1 b.1⟩
  haveI : IsTrans (ℤ × ℤ) (fun a b : ℤ × ℤ => a.1 ≤ b.1) :=
    ⟨fun a b c hab hbc => le_trans hab hbc⟩
  simp only [schedule, charging_periods, simplify_periods]
  split_ifs with h <;>
    first
      | exact ⟨List.sorted_singleton _, List.Perm.refl _⟩
      | exact ⟨List.sorted_insertionSort _ _, List.perm_insertionSort _ _⟩

/-- Claim C10: in the optimizing case every period returned by the
allocator is contained in some candidate period, and outside the
short-circuit case every period of the final schedule is contained in
the plug-in-to-deadline window. -/
theorem claim_C10_containment :
    (∀ (periods : List (ℤ × ℤ)) (ct : ℤ) (ms : List CO2Measure),
      ct < total_duration periods →
      ∀ q ∈ optimize_co2 periods ct ms,
        ∃ c ∈ periods, c.1 ≤ q.1 ∧ q.2 ≤ c.2) ∧
    (∀ (rb : ℤ × ℤ) (cm p : ℤ) (ops ope : ℤ × ℤ) (ms : List CO2Measure),
      0 ≤ rb.1 → 0 ≤ rb.2 → 0 ≤ ops.1 → 0 ≤ ops.2 → 0 ≤ ope.1 → 0 ≤ ope.2 →
      cm * 60 < next_datetime_with_time p rb.1 rb.2 - p →
      ∀ q ∈ schedule rb cm p ops ope ms,
        p ≤ q.1 ∧ q.2 ≤ next_datetime_with_time p rb.1 rb.2) := by
  constructor
  · intro periods ct ms _ q hq
    exact optimize_co2_mem periods ct ms q hq
  · intro rb cm p ops ope ms hrb1 hrb2 h1 h2 h3 h4 hlong q hq
    have hpr : p < next_datetime_with_time p rb.1 rb.2 :=
      next_gt p rb.1 rb.2 hrb1 hrb2
    have hb := partition_bounds p (next_datetime_with_time p rb.1 rb.2) ops ope
      h1 h2 h3 h4 hpr
    simp only [schedule] at hq
    rw [if_neg (by omega)] at hq
    have hq2 := mem_simplify_periods.mp hq
    simp only [charging_periods] at hq2
    rw [if_neg (by omega)] at hq2
    split_ifs at hq2 with hcap
    · obtain ⟨c, hc, hc1, hc2⟩ := optimize_co2_mem _ _ _ q hq2
      have := hb c (List.mem_append_left _ hc)
      exact ⟨by omega, by omega⟩
    · rcases List.mem_append.mp hq2 with hq3 | hq3
      · have := hb q (List.mem_append_left _ hq3)
        exact ⟨by omega, by omega⟩
      · obtain ⟨c, hc, hc1, hc2⟩ := optimize_co2_mem _ _ _ q hq3
        have := hb c (List.mem_append_right _ hc)
        exact ⟨by omega, by omega⟩

/-- Claim C10 witness: the allocator conjunct applied at a concrete
optimizing input and output period. -/
theorem claim_C10_witness :
    ∃ c ∈ [((0 : ℤ), 200)],
      c.1 ≤ ((0 : ℤ), (100 : ℤ)).1 ∧ ((0 : ℤ), (100 : ℤ)).2 ≤ c.2 :=
  claim_C10_containment.1 [((0 : ℤ), 200)] 100 [⟨-604800, -604500, 5⟩]
    (by decide) (0, 100) (by decide)

end EVSchedule
